import Mathlib

/-!
Verification of the CoinGecko→Webflow sync scripts.

The repository consists of several revisions of one Node.js script.  The
pure decision logic relevant to the specification is embedded below:

* `downsampleData`        — `downsampleData(data, targetPoints)` (identical in
                            `src/sync.js`, `src/unnamed/part_000`, `part_001`);
* `calculatePercentageChange` — percent-change series relative to the first value;
* `normalizeTimestamps`   — synthetic evenly-spaced timestamp axis (`part_000`);
* `buildExistingMap`/`truthyId` — the identity index over prior Webflow items
                            built in `syncItems`;
* `syncItems`             — the per-coin update/create apply loop of `src/sync.js`,
                            with the network/exception environment abstracted as a
                            per-item outcome oracle;
* `itemsToArchive`/`archiveOldCoins` — the archive loop of `part_000`;
* `batchNumber`/`chartBatch` — the rotating chart-batch selector of
                            `part_000`/`part_001`.

Numbers that the script manipulates as JS floats (timestamps, prices,
percents) are modelled as exact rationals.
-/

namespace CoingeckoSync

/-- A market entity fetched from the data provider; only the fields the
decision logic reads are kept (`coin.id` is the stable external identity). -/
structure Coin where
  id : String
  name : String
deriving DecidableEq

/-- A record of the Webflow collection: its own opaque record id and the
`coingecko-id` slug of its field data (`none` when the field is absent). -/
structure WebflowItem where
  itemId : String
  coingeckoId : Option String
deriving DecidableEq

/-- A `(timestamp, value)` chart point; both components are JS numbers,
modelled as rationals. -/
abbrev TimePoint := ℚ × ℚ

/-! ## Downsampler (`downsampleData`, src/sync.js lines 352–371) -/

/-- The values taken by the loop counter `for (let i = 0; i < data.length;
i += step)`: the multiples of `step` below `len`, in increasing order. -/
def strideIndices (len step : Nat) : List Nat :=
  (List.range len).filter (fun i => i % step = 0)

/-- Shallow embedding of `downsampleData(data, targetPoints)`.  The loop body
pushes `data[i]` only while `result.length < targetPoints`, which is the
`take targetPoints` of the full stride selection; afterwards the source
appends `data[data.length - 1]` if fewer than `targetPoints` points were
collected. -/
def downsampleData {α : Type} [Inhabited α] (data : List α) (targetPoints : Nat) : List α :=
  if data.length = 0 then []
  else if data.length ≤ targetPoints then data
  else
    let step := data.length / targetPoints
    let result := ((strideIndices data.length step).take targetPoints).map
      (fun i => data.getD i default)
    if result.length < targetPoints then result ++ [data.getD (data.length - 1) default]
    else result

/-- Models `parseFloat(x.toFixed(2))` on an exact rational: ECMAScript
`toFixed` extracts the sign and then picks the integer `n` closest to
`|x| * 100`, ties going to the larger `n`, i.e. it rounds half away from
zero at two decimal places. -/
def round2 (q : ℚ) : ℚ :=
  if q < 0 then -((Rat.floor ((-q) * 100 + 1 / 2) : ℚ)) / 100
  else ((Rat.floor (q * 100 + 1 / 2) : ℚ)) / 100

/-- Shallow embedding of `calculatePercentageChange(data)`
(src/unnamed/part_001 lines 400–410, identical in part_000 675–685): the
baseline is the first element's value; a falsy (zero) baseline yields
all-zero percents, otherwise each value becomes the rounded percent change
from the baseline. -/
def calculatePercentageChange (data : List TimePoint) : List TimePoint :=
  match data with
  | [] => []
  | p0 :: _ =>
    if p0.2 = 0 then data.map (fun p => (p.1, 0))
    else data.map (fun p => (p.1, round2 ((p.2 - p0.2) / p0.2 * 100)))

/-! ## Timestamp normalizer (`normalizeTimestamps`, src/unnamed/part_000
lines 622–650) -/

/-- The indexed `data.map(([_, value], index) => [start + index * interval,
value])` callback, written as a recursion over the list carrying the index. -/
def normalizeLoop (startTime interval : ℚ) : Nat → List TimePoint → List TimePoint
  | _, [] => []
  | i, p :: rest =>
      (startTime + (i : ℚ) * interval, p.2) :: normalizeLoop startTime interval (i + 1) rest

/-- Shallow embedding of `normalizeTimestamps(data, pointsCount, baseTime,
isOneYear)`. -/
def normalizeTimestamps (data : List TimePoint) (pointsCount : Nat) (baseTime : ℚ)
    (isOneYear : Bool) : List TimePoint :=
  if data.length = 0 then []
  else if isOneYear then
    let oneYearAgo := baseTime - 365 * 24 * 60 * 60 * 1000
    let interval := (365 * 24 * 60 * 60 * 1000 : ℚ) / (data.length : ℚ)
    normalizeLoop oneYearAgo interval 0 data
  else
    let hoursBack : Nat :=
      if pointsCount = 24 then 24
      else if pointsCount = 168 then 168
      else if pointsCount = 720 then 720
      else pointsCount
    let startTime := baseTime - (hoursBack : ℚ) * 60 * 60 * 1000
    let interval := ((hoursBack : ℚ) * 60 * 60 * 1000) / (data.length : ℚ)
    normalizeLoop startTime interval 0 data

/-! ## Identity index over prior records (`syncItems`, src/sync.js lines
138–145) -/

/-- The JS truthiness test `if (coingeckoId)` applied to
`item.fieldData?.['coingecko-id']`: both a missing field and the empty
string are falsy. -/
def truthyId (item : WebflowItem) : Option String :=
  match item.coingeckoId with
  | some s => if s = "" then none else some s
  | none => none

/-- `Map.prototype.set`: a later write to the same key overrides an earlier
one.  The script reads the map only through `get`, so the map is embedded as
its lookup function. -/
def mapSet (m : String → Option WebflowItem) (k : String) (v : WebflowItem) :
    String → Option WebflowItem :=
  fun q => if q = k then some v else m q

/-- One iteration of `existingItems.forEach(item => { const coingeckoId =
item.fieldData?.['coingecko-id']; if (coingeckoId) existingMap.set(coingeckoId,
item); })`. -/
def indexStep (m : String → Option WebflowItem) (item : WebflowItem) :
    String → Option WebflowItem :=
  match truthyId item with
  | some s => mapSet m s item
  | none => m

/-- The identity index `existingMap` built by `syncItems` over the prior
Webflow items. -/
def buildExistingMap (existingItems : List WebflowItem) : String → Option WebflowItem :=
  existingItems.foldl indexStep (fun _ => none)

/-! ## Reconciliation decision (per-coin branch of `syncItems` and the
archive filter of `archiveOldCoins`, src/unnamed/part_000 lines 290–333) -/

/-- The coins the apply loop routes to the update branch, paired with the
prior record found in the identity index (`existingMap.get(coin.id)`). -/
def toUpdate (coins : List Coin) (existingItems : List WebflowItem) :
    List (Coin × WebflowItem) :=
  coins.filterMap (fun c => (buildExistingMap existingItems c.id).map (fun it => (c, it)))

/-- The coins the apply loop routes to the create branch (no prior record
under the coin's identity). -/
def toCreate (coins : List Coin) (existingItems : List WebflowItem) : List Coin :=
  coins.filter (fun c => (buildExistingMap existingItems c.id).isNone)

/-- `archiveOldCoins`: `existingItems.filter(item =>
!currentCoinIds.has(item.fieldData['coingecko-id']))` where `currentCoinIds =
new Set(currentCoins.map(c => c.id))`; `has(undefined)` is false, so a record
with no identity field is selected for archiving. -/
def itemsToArchive (currentCoins : List Coin) (existingItems : List WebflowItem) :
    List WebflowItem :=
  existingItems.filter (fun item =>
    !(match item.coingeckoId with
      | some s => (currentCoins.map (fun c => c.id)).contains s
      | none => false))

/-! ## The apply loops, with the external collaborator abstracted as a
per-item outcome oracle -/

/-- Per-run tally `{ updated: 0, created: 0, failed: 0 }` of `syncItems`. -/
structure SyncResults where
  updated : Nat
  created : Nat
  failed : Nat
deriving DecidableEq

/-- Environment behaviour of one iteration of the `syncItems` loop: the
request succeeds (`response.ok`), fails with an HTTP error status, or the
body throws and is caught by the per-item `catch`. -/
inductive ItemOutcome
  | ok
  | httpError
  | thrown
deriving DecidableEq

/-- The `for (let i = 0; i < coins.length; i++)` loop of `syncItems`
(src/sync.js lines 150–236): each coin is looked up in the identity index,
routed to update or create, and exactly one tally is incremented; the second
component records the loop indices actually processed, in order. -/
def syncLoop (existingMap : String → Option WebflowItem) (outcome : Nat → ItemOutcome) :
    Nat → List Coin → SyncResults → SyncResults × List Nat
  | _, [], r => (r, [])
  | i, coin :: rest, r =>
      let r1 : SyncResults :=
        match outcome i with
        | ItemOutcome.thrown => { r with failed := r.failed + 1 }
        | ItemOutcome.httpError => { r with failed := r.failed + 1 }
        | ItemOutcome.ok =>
          match existingMap coin.id with
          | some _ => { r with updated := r.updated + 1 }
          | none => { r with created := r.created + 1 }
      let rest1 := syncLoop existingMap outcome (i + 1) rest r1
      (rest1.1, i :: rest1.2)

/-- `syncItems(coins, existingItems)` under an outcome oracle: builds the
identity index, then runs the apply loop from index 0 with zeroed tallies. -/
def syncItems (coins : List Coin) (existingItems : List WebflowItem)
    (outcome : Nat → ItemOutcome) : SyncResults × List Nat :=
  syncLoop (buildExistingMap existingItems) outcome 0 coins
    { updated := 0, created := 0, failed := 0 }

/-- Environment behaviour of one iteration of the `archiveOldCoins` loop. -/
inductive ArchiveOutcome
  | ok
  | httpError
  | thrown
deriving DecidableEq

/-- The `for (let i = 0; i < itemsToArchive.length; i++)` loop of
`archiveOldCoins` (src/unnamed/part_000 lines 298–328): every failure is
caught (or only logged), no tally exists, and the loop moves on.  Each
processed item is recorded as `(index, succeeded)`. -/
def archiveLoop (outcome : Nat → ArchiveOutcome) : Nat → List WebflowItem → List (Nat × Bool)
  | _, [] => []
  | i, _ :: rest => (i, outcome i == ArchiveOutcome.ok) :: archiveLoop outcome (i + 1) rest

/-- `archiveOldCoins(currentCoins, existingItems)` under an outcome oracle. -/
def archiveOldCoins (currentCoins : List Coin) (existingItems : List WebflowItem)
    (outcome : Nat → ArchiveOutcome) : List (Nat × Bool) :=
  archiveLoop outcome 0 (itemsToArchive currentCoins existingItems)

/-! ## Rotating chart-batch selector (src/unnamed/part_000 lines 204–211,
part_001 lines 731–737) -/

/-- `const batchNumber = Math.floor(currentHour / 2) % 7`. -/
def batchNumber (currentHour : Nat) : Nat :=
  currentHour / 2 % 7

/-- The batch slice: `startIdx = batchNumber * 7`, `endIdx = min(startIdx + 7,
coins.length)`, `coins.slice(startIdx, endIdx)`. -/
def chartBatch {α : Type} (coins : List α) (currentHour : Nat) : List α :=
  let batchSize := 7
  let startIdx := batchNumber currentHour * batchSize
  let endIdx := min (startIdx + batchSize) coins.length
  (coins.drop startIdx).take (endIdx - startIdx)

/-! ## Concrete sample data used by witnesses (the end-to-end example of the
specification: current = [btc], prior = [btc@r1, old@r2]) -/

/-- The sample current entity. -/
def btcCoin : Coin := { id := "bitcoin", name := "Bitcoin" }

/-- A prior record for the sample current entity. -/
def btcItem : WebflowItem := { itemId := "r1", coingeckoId := some "bitcoin" }

/-- A prior record whose entity fell out of the ranked window. -/
def oldItem : WebflowItem := { itemId := "r2", coingeckoId := some "oldcoin" }

/-! # Theorems -/

/-- The stride selection always offers at least `n` indices when
`step = len / n` with `0 < n < len`. -/
lemma le_length_strideIndices (len n : Nat) (hn : 0 < n) (hlt : n < len) :
    n ≤ (strideIndices len (len / n)).length := by
  set step := len / n with hstep
  have hstep1 : 1 ≤ step := (Nat.one_le_div_iff hn).mpr (Nat.le_of_lt hlt)
  have hmul : step * n ≤ len := Nat.div_mul_le_self len n
  have hkey : (n - 1) * step < len := by
    have h1 : (n - 1) * step < n * step :=
      Nat.mul_lt_mul_of_lt_of_le (Nat.sub_lt hn Nat.one_pos) (le_refl step) hstep1
    calc (n - 1) * step < n * step := h1
      _ = step * n := Nat.mul_comm n step
      _ ≤ len := hmul
  have hnodup : ((List.range n).map (fun j => j * step)).Nodup := by
    refine List.Nodup.map ?_ (List.nodup_range n)
    intro a b hab
    exact Nat.eq_of_mul_eq_mul_right (Nat.lt_of_lt_of_le Nat.one_pos hstep1) hab
  have hsub : ((List.range n).map (fun j => j * step)) ⊆ strideIndices len step := by
    intro x hx
    rcases List.mem_map.mp hx with ⟨j, hj, rfl⟩
    have hjn : j < n := List.mem_range.mp hj
    refine List.mem_filter.mpr ⟨List.mem_range.mpr ?_, ?_⟩
    · calc j * step ≤ (n - 1) * step := Nat.mul_le_mul_right step (by omega)
        _ < len := hkey
    · simp [Nat.mul_mod_left]
  have hle := (List.subperm_of_subset hnodup hsub).length_le
  simpa using hle

/-- Claim C3: for a non-empty series and positive target, the downsampled
length is exactly the target, except when the source is shorter than the
target, in which case it is the source length; it never exceeds the target. -/
theorem downsampleData_length {α : Type} [Inhabited α] (s : List α) (n : Nat)
    (h1 : s ≠ []) (h2 : 0 < n) :
    (downsampleData s n).length = min s.length n := by
  have hlen0 : s.length ≠ 0 := by simpa [List.length_eq_zero] using h1
  rw [downsampleData]
  by_cases hle : s.length ≤ n
  · simp [hlen0, hle, Nat.min_eq_left hle]
  · push_neg at hle
    have hcount := le_length_strideIndices s.length n h2 hle
    have htake : (((strideIndices s.length (s.length / n)).take n).map
        (fun i => s.getD i default)).length = n := by
      rw [List.length_map, List.length_take]
      omega
    simp only [hlen0, if_false, if_neg (by omega : ¬ s.length ≤ n)]
    rw [if_neg (by rw [htake]; omega)]
    rw [htake]
    omega

/-- Witness for C3 at a concrete input: a 5-point series downsampled to 3
points has length `min 5 3 = 3`. -/
theorem downsampleData_length_witness :
    (downsampleData (List.range 5) 3).length = min (List.range 5).length 3 :=
  downsampleData_length (List.range 5) 3 (by decide) (by decide)

/-- Claim C1 (failing input): on the spec's own example — a 100-point series
downsampled to 10 points — the last output point is the input point at index
90, not the final input point at index 99: the final-point append in the
source is dead code because the stride loop always saturates the target
first. -/
theorem downsampleData_drops_last_point :
    (downsampleData (List.range 100) 10).getLast? = some 90
    ∧ (List.range 100).getLast? = some 99
    ∧ (90 : Nat) ≠ 99 := by
  refine ⟨by decide, by decide, by decide⟩

/-- Unfolding the identity-index fold over a snoc. -/
lemma buildExistingMap_append_singleton (l : List WebflowItem) (a : WebflowItem) :
    buildExistingMap (l ++ [a]) = indexStep (buildExistingMap l) a := by
  rw [buildExistingMap, List.foldl_append]
  rfl

/-- Claim C8: the identity index maps each key to the last prior record (in
input order) whose truthy identity field equals that key; duplicate keys
simply overwrite earlier entries and index construction is total. -/
theorem buildExistingMap_last_wins (existingItems : List WebflowItem) (k : String) :
    buildExistingMap existingItems k
      = (existingItems.filter (fun r => decide (truthyId r = some k))).getLast? := by
  induction existingItems using List.reverseRecOn with
  | nil => rfl
  | append_singleton l a ih =>
    rw [buildExistingMap_append_singleton, List.filter_append, indexStep]
    cases ha : truthyId a with
    | none =>
      have hfa : List.filter (fun r => decide (truthyId r = some k)) [a] = [] := by
        simp [ha]
      rw [hfa, List.append_nil]
      exact ih
    | some s =>
      by_cases hk : k = s
      · subst hk
        have hfa : List.filter (fun r => decide (truthyId r = some k)) [a] = [a] := by
          simp [ha]
        rw [hfa, List.getLast?_concat]
        simp [mapSet]
      · have hfa : List.filter (fun r => decide (truthyId r = some k)) [a] = [] := by
          simp [ha]
          exact fun h => absurd h.symm hk
        rw [hfa, List.append_nil]
        simp only [mapSet, if_neg hk]
        exact ih

/-- A truthy identity is the record's identity field (and is non-empty). -/
lemma truthyId_eq_some {item : WebflowItem} {s : String} (h : truthyId item = some s) :
    item.coingeckoId = some s := by
  unfold truthyId at h
  split at h
  next t heq =>
    split at h
    · exact absurd h (by simp)
    · rw [heq]
      exact h
  next heq => exact absurd h (by simp)

/-- Any record found in the identity index carries exactly the key it was
found under. -/
lemma buildExistingMap_coingeckoId (existingItems : List WebflowItem) (k : String)
    (v : WebflowItem) (h : buildExistingMap existingItems k = some v) :
    v.coingeckoId = some k := by
  rw [buildExistingMap_last_wins] at h
  have hv := List.mem_of_getLast?_eq_some h
  have hp := (List.mem_filter.mp hv).2
  exact truthyId_eq_some (of_decide_eq_true hp)

/-- Membership in the create branch. -/
lemma mem_toCreate (coins : List Coin) (existingItems : List WebflowItem) (c : Coin) :
    c ∈ toCreate coins existingItems
      ↔ c ∈ coins ∧ buildExistingMap existingItems c.id = none := by
  simp [toCreate, List.mem_filter, Option.isNone_iff_eq_none]

/-- Membership among the update branch's sources. -/
lemma mem_toUpdate_fst (coins : List Coin) (existingItems : List WebflowItem) (c : Coin) :
    c ∈ (toUpdate coins existingItems).map Prod.fst
      ↔ c ∈ coins ∧ ∃ it, buildExistingMap existingItems c.id = some it := by
  constructor
  · intro h
    rcases List.mem_map.mp h with ⟨pr, hpr, rfl⟩
    rcases List.mem_filterMap.mp hpr with ⟨a, ha, hfa⟩
    rcases Option.map_eq_some'.mp hfa with ⟨it, hit, heq⟩
    cases heq
    exact ⟨ha, it, hit⟩
  · rintro ⟨hc, it, hit⟩
    refine List.mem_map.mpr ⟨(c, it), ?_, rfl⟩
    exact List.mem_filterMap.mpr ⟨c, hc, by rw [hit]; rfl⟩

/-- Claim C2: the reconcile decision partitions the work — every current
entity is routed to exactly one of create or update; the identities of the
create list together with the identities of the update targets are exactly
the identities of the current snapshot; and the archive list is exactly the
prior records whose identity is absent from the current snapshot, kept in
the input order of the prior list. -/
theorem reconcile_partition (coins : List Coin) (existingItems : List WebflowItem) :
    (∀ c ∈ coins,
        (c ∈ toCreate coins existingItems
          ↔ c ∉ (toUpdate coins existingItems).map Prod.fst))
    ∧ (∀ s : String,
        s ∈ coins.map (fun c => c.id)
          ↔ (s ∈ (toCreate coins existingItems).map (fun c => c.id)
              ∨ some s ∈ (toUpdate coins existingItems).map (fun p => p.2.coingeckoId)))
    ∧ (itemsToArchive coins existingItems).Sublist existingItems
    ∧ (∀ r : WebflowItem,
        r ∈ itemsToArchive coins existingItems
          ↔ r ∈ existingItems ∧ ¬ ∃ c ∈ coins, r.coingeckoId = some c.id) := by
  refine ⟨?_, ?_, ?_, ?_⟩
  · intro c hc
    rw [mem_toCreate, mem_toUpdate_fst]
    cases hb : buildExistingMap existingItems c.id <;> simp [hc, hb]
  · intro s
    constructor
    · intro hs
      rcases List.mem_map.mp hs with ⟨c, hc, rfl⟩
      cases hb : buildExistingMap existingItems c.id with
      | none =>
        exact Or.inl (List.mem_map.mpr ⟨c, (mem_toCreate coins existingItems c).mpr ⟨hc, hb⟩, rfl⟩)
      | some it =>
        refine Or.inr (List.mem_map.mpr ⟨(c, it), ?_, ?_⟩)
        · exact List.mem_filterMap.mpr ⟨c, hc, by rw [hb]; rfl⟩
        · exact (buildExistingMap_coingeckoId existingItems c.id it hb).symm ▸ rfl
    · intro h
      cases h with
      | inl h =>
        rcases List.mem_map.mp h with ⟨c, hc, rfl⟩
        exact List.mem_map.mpr ⟨c, ((mem_toCreate coins existingItems c).mp hc).1, rfl⟩
      | inr h =>
        rcases List.mem_map.mp h with ⟨pr, hpr, hid⟩
        rcases List.mem_filterMap.mp hpr with ⟨a, ha, hfa⟩
        rcases Option.map_eq_some'.mp hfa with ⟨it, hit, heq⟩
        cases heq
        have hinv := buildExistingMap_coingeckoId existingItems a.id it hit
        rw [hinv] at hid
        injection hid with hid
        exact List.mem_map.mpr ⟨a, ha, hid⟩
  · exact List.filter_sublist existingItems
  · intro r
    rw [itemsToArchive, List.mem_filter]
    have hpred : (!(match r.coingeckoId with
          | some s => (coins.map (fun c => c.id)).contains s
          | none => false)) = true
        ↔ ¬ ∃ c ∈ coins, r.coingeckoId = some c.id := by
      cases hcid : r.coingeckoId with
      | none => simp
      | some s =>
        have hiff : ((coins.map (fun c => c.id)).contains s = true)
            ↔ ∃ c ∈ coins, (some s : Option String) = some c.id := by
          rw [List.contains_iff_exists_mem_beq]
          constructor
          · rintro ⟨x, hx, hbeq⟩
            rcases List.mem_map.mp hx with ⟨c, hc, rfl⟩
            exact ⟨c, hc, by simpa using hbeq⟩
          · rintro ⟨c, hc, heq⟩
            refine ⟨c.id, List.mem_map.mpr ⟨c, hc, rfl⟩, ?_⟩
            injection heq with h
            simp [h]
        simp only [Bool.not_eq_true']
        rw [← Bool.not_eq_true]
        exact not_congr hiff
    exact and_congr Iff.rfl hpred

/-- Witness for C2 on the specification's end-to-end example — with
current = [btc] and prior = [btc@r1, old@r2], the btc entity is routed to
exactly one branch (update, hence not create). -/
theorem reconcile_partition_witness :
    btcCoin ∈ toCreate [btcCoin] [btcItem, oldItem]
      ↔ btcCoin ∉ (toUpdate [btcCoin] [btcItem, oldItem]).map Prod.fst :=
  (reconcile_partition [btcCoin] [btcItem, oldItem]).1 btcCoin (by decide)

/-- The apply loop visits every index in order, no matter which items fail. -/
lemma syncLoop_trace (m : String → Option WebflowItem) (outcome : Nat → ItemOutcome)
    (coins : List Coin) :
    ∀ (i : Nat) (r : SyncResults),
      (syncLoop m outcome i coins r).2 = List.range' i coins.length := by
  induction coins with
  | nil => intro i r; rfl
  | cons coin rest ih =>
    intro i r
    simp only [syncLoop, List.length_cons, List.range'_succ]
    rw [ih]

/-- Each iteration of the apply loop increments exactly one tally. -/
lemma syncLoop_total (m : String → Option WebflowItem) (outcome : Nat → ItemOutcome)
    (coins : List Coin) :
    ∀ (i : Nat) (r : SyncResults),
      (syncLoop m outcome i coins r).1.updated + (syncLoop m outcome i coins r).1.created
          + (syncLoop m outcome i coins r).1.failed
        = r.updated + r.created + r.failed + coins.length := by
  induction coins with
  | nil => intro i r; simp [syncLoop]
  | cons coin rest ih =>
    intro i r
    simp only [syncLoop, List.length_cons]
    cases ho : outcome i with
    | thrown =>
      have h := ih (i + 1) { r with failed := r.failed + 1 }
      simp only at h ⊢
      omega
    | httpError =>
      have h := ih (i + 1) { r with failed := r.failed + 1 }
      simp only at h ⊢
      omega
    | ok =>
      cases hm : m coin.id with
      | some it =>
        have h := ih (i + 1) { r with updated := r.updated + 1 }
        simp only at h ⊢
        omega
      | none =>
        have h := ih (i + 1) { r with created := r.created + 1 }
        simp only at h ⊢
        omega

/-- The failed tally counts exactly the positions whose outcome is not ok. -/
lemma syncLoop_failed (m : String → Option WebflowItem) (outcome : Nat → ItemOutcome)
    (coins : List Coin) :
    ∀ (i : Nat) (r : SyncResults),
      (syncLoop m outcome i coins r).1.failed
        = r.failed + (List.range' i coins.length).countP
            (fun j => decide (outcome j ≠ ItemOutcome.ok)) := by
  induction coins with
  | nil => intro i r; simp [syncLoop]
  | cons coin rest ih =>
    intro i r
    simp only [syncLoop, List.length_cons, List.range'_succ, List.countP_cons]
    cases ho : outcome i with
    | thrown =>
      have h := ih (i + 1) { r with failed := r.failed + 1 }
      simp only at h ⊢
      rw [h]
      simp [ho]
      omega
    | httpError =>
      have h := ih (i + 1) { r with failed := r.failed + 1 }
      simp only at h ⊢
      rw [h]
      simp [ho]
      omega
    | ok =>
      cases hm : m coin.id with
      | some it =>
        have h := ih (i + 1) { r with updated := r.updated + 1 }
        simp only at h ⊢
        rw [h]
        simp [ho]
      | none =>
        have h := ih (i + 1) { r with created := r.created + 1 }
        simp only at h ⊢
        rw [h]
        simp [ho]

/-- The archive loop visits every to-archive item in order, no matter which
archive requests fail. -/
lemma archiveLoop_trace (outcome : Nat → ArchiveOutcome) (items : List WebflowItem) :
    ∀ i : Nat, (archiveLoop outcome i items).map Prod.fst = List.range' i items.length := by
  induction items with
  | nil => intro i; rfl
  | cons a rest ih =>
    intro i
    simp only [archiveLoop, List.map_cons, List.length_cons, List.range'_succ]
    rw [ih]

/-- Claim C9: after the apply loop over `n` current entities the tallies
satisfy `updated + created + failed = n` — every entity contributes to
exactly one tally, whatever the per-item outcomes. -/
theorem syncItems_total (coins : List Coin) (existingItems : List WebflowItem)
    (outcome : Nat → ItemOutcome) :
    (syncItems coins existingItems outcome).1.updated
      + (syncItems coins existingItems outcome).1.created
      + (syncItems coins existingItems outcome).1.failed = coins.length := by
  have h := syncLoop_total (buildExistingMap existingItems) outcome coins 0
    { updated := 0, created := 0, failed := 0 }
  simpa [syncItems] using h

/-- Claim C7 (amended): no single failure aborts either apply loop — the
update/create loop processes every index and its failed tally counts exactly
the failing positions, and the archive loop likewise processes every
to-archive item; archive failures, however, are only logged, not tallied. -/
theorem apply_loops_fault_containment (coins : List Coin) (existingItems : List WebflowItem)
    (outcome : Nat → ItemOutcome) (archOutcome : Nat → ArchiveOutcome) :
    (syncItems coins existingItems outcome).2 = List.range coins.length
    ∧ (syncItems coins existingItems outcome).1.failed
        = (List.range coins.length).countP (fun j => decide (outcome j ≠ ItemOutcome.ok))
    ∧ (archiveOldCoins coins existingItems archOutcome).map Prod.fst
        = List.range (itemsToArchive coins existingItems).length := by
  refine ⟨?_, ?_, ?_⟩
  · rw [List.range_eq_range']
    exact syncLoop_trace (buildExistingMap existingItems) outcome coins 0
      { updated := 0, created := 0, failed := 0 }
  · rw [List.range_eq_range']
    have h := syncLoop_failed (buildExistingMap existingItems) outcome coins 0
      { updated := 0, created := 0, failed := 0 }
    simpa [syncItems] using h
  · rw [List.range_eq_range']
    exact archiveLoop_trace archOutcome (itemsToArchive coins existingItems) 0

/-- Claim C7 (counterexample to the claim as stated): a failing archive item
is processed and skipped but recorded in no failed tally — with no current
coins and one stale prior record whose archive request fails, the archive
loop reports the failure, while the run's only failed tally (the
`syncItems` results) stays 0. -/
theorem archive_failure_not_tallied :
    archiveOldCoins [] [oldItem] (fun _ => ArchiveOutcome.httpError) = [(0, false)]
    ∧ (syncItems [] [oldItem] (fun _ => ItemOutcome.httpError)).1.failed = 0 :=
  ⟨by decide, by decide⟩

/-- Claim C4 (failing configuration): over the seven runs at UTC hours
0,2,...,12 the selector does visit the batch numbers 0..6 exactly once, but
the union of the selected slices of a 50-entity list has only 49 elements:
indices 0..48 each appear exactly once and index 49 — the 50th entity —
appears in no batch, contradicting the source comment "7 batches to cover
all 50 coins". -/
theorem chartBatch_misses_last_coin :
    ((List.range 7).map (fun k => batchNumber (2 * k)) = [0, 1, 2, 3, 4, 5, 6])
    ∧ (((List.range 7).map (fun k => chartBatch (List.range 50) (2 * k))).flatten.length = 49)
    ∧ ((49 : Nat) ∉ ((List.range 7).map (fun k => chartBatch (List.range 50) (2 * k))).flatten)
    ∧ ((List.range 49).all
        (fun j => ((List.range 7).map (fun k => chartBatch (List.range 50) (2 * k))).flatten.count j
          == 1) = true) :=
  ⟨by decide, by decide, by decide, by decide⟩

/-- The normalizing map preserves the length of its input. -/
lemma normalizeLoop_length (startTime interval : ℚ) (l : List TimePoint) :
    ∀ i : Nat, (normalizeLoop startTime interval i l).length = l.length := by
  induction l with
  | nil => intro i; rfl
  | cons p rest ih => intro i; simp [normalizeLoop, ih]

/-- Each output timestamp of the normalizing map is `start + index * interval`. -/
lemma normalizeLoop_get (startTime interval : ℚ) (l : List TimePoint) :
    ∀ (i0 j : Nat) (h : j < (normalizeLoop startTime interval i0 l).length),
      ((normalizeLoop startTime interval i0 l).get ⟨j, h⟩).1
        = startTime + ((i0 + j : Nat) : ℚ) * interval := by
  induction l with
  | nil => intro i0 j h; simp [normalizeLoop] at h
  | cons p rest ih =>
    intro i0 j h
    cases j with
    | zero => simp [normalizeLoop]
    | succ j1 =>
      have h1 : j1 < (normalizeLoop startTime interval (i0 + 1) rest).length := by
        simpa [normalizeLoop] using h
      have hrec := ih (i0 + 1) j1 h1
      simp only [normalizeLoop, List.get_cons_succ]
      rw [hrec]
      congr 2
      push_cast
      ring

/-- The last output timestamp of the normalizing map. -/
lemma normalizeLoop_getLast (startTime interval : ℚ) (l : List TimePoint) (i0 : Nat)
    (hne : l ≠ []) :
    (normalizeLoop startTime interval i0 l).getLast?.map Prod.fst
      = some (startTime + ((i0 + (l.length - 1) : Nat) : ℚ) * interval) := by
  have hlen := normalizeLoop_length startTime interval l i0
  have hpos : 0 < l.length := List.length_pos.mpr hne
  have hidx : l.length - 1 < (normalizeLoop startTime interval i0 l).length := by omega
  rw [List.getLast?_eq_get?, hlen, List.get?_eq_get hidx]
  rw [Option.map_some']
  rw [normalizeLoop_get startTime interval l i0 (l.length - 1) hidx]

/-- Reduction of `normalizeTimestamps` on the 24-hour horizon. -/
lemma normalizeTimestamps_24h (data : List TimePoint) (baseTime : ℚ) (hne : data ≠ []) :
    normalizeTimestamps data 24 baseTime false
      = normalizeLoop (baseTime - 86400000) (86400000 / (data.length : ℚ)) 0 data := by
  have hlen0 : data.length ≠ 0 := fun h => hne (List.length_eq_zero.mp h)
  rw [normalizeTimestamps, if_neg hlen0]
  norm_num

/-- Claim C5 (amended): with `pointCount = 24` on the hourly-anchored branch
the output keeps the input length, the timestamps are strictly increasing,
the first timestamp is exactly `now - 24` hours, and the last timestamp is
`now - interval` where `interval = 24 hours / len(points)` — one interval
short of `now`, not `now` itself. -/
theorem normalize_24h_axis (data : List TimePoint) (baseTime : ℚ) (hne : data ≠ []) :
    (normalizeTimestamps data 24 baseTime false).length = data.length
    ∧ (∀ (i j : Nat) (hi : i < (normalizeTimestamps data 24 baseTime false).length)
          (hj : j < (normalizeTimestamps data 24 baseTime false).length), i < j →
        ((normalizeTimestamps data 24 baseTime false).get ⟨i, hi⟩).1
          < ((normalizeTimestamps data 24 baseTime false).get ⟨j, hj⟩).1)
    ∧ (normalizeTimestamps data 24 baseTime false).head?.map Prod.fst
        = some (baseTime - 86400000)
    ∧ (normalizeTimestamps data 24 baseTime false).getLast?.map Prod.fst
        = some (baseTime - 86400000 / (data.length : ℚ)) := by
  have hlen0 : data.length ≠ 0 := fun h => hne (List.length_eq_zero.mp h)
  have hcast : (0 : ℚ) < (data.length : ℚ) := by
    exact_mod_cast Nat.pos_of_ne_zero hlen0
  have hint : (0 : ℚ) < 86400000 / (data.length : ℚ) := by positivity
  have hred := normalizeTimestamps_24h data baseTime hne
  refine ⟨?_, ?_, ?_, ?_⟩
  · rw [hred]
    exact normalizeLoop_length _ _ data 0
  · intro i j hi hj hij
    have hi2 : i < (normalizeLoop (baseTime - 86400000) (86400000 / (data.length : ℚ)) 0
        data).length := by rw [← hred]; exact hi
    have hj2 : j < (normalizeLoop (baseTime - 86400000) (86400000 / (data.length : ℚ)) 0
        data).length := by rw [← hred]; exact hj
    have hgi := List.get_of_eq hred ⟨i, hi⟩
    have hgj := List.get_of_eq hred ⟨j, hj⟩
    rw [hgi, hgj]
    rw [normalizeLoop_get _ _ data 0 i (by simpa using hi2),
      normalizeLoop_get _ _ data 0 j (by simpa using hj2)]
    have hlt : ((0 + i : Nat) : ℚ) < ((0 + j : Nat) : ℚ) := by
      exact_mod_cast by omega
    exact add_lt_add_left (mul_lt_mul_of_pos_right hlt hint) _
  · rw [hred]
    cases data with
    | nil => exact absurd rfl hne
    | cons p rest =>
      simp [normalizeLoop]
  · rw [hred, normalizeLoop_getLast _ _ data 0 hne]
    congr 1
    have hlen1 : (1 : ℕ) ≤ data.length := Nat.pos_of_ne_zero hlen0
    rw [Nat.zero_add, Nat.cast_sub hlen1]
    push_cast
    field_simp
    ring

/-- Witness for C5 (amended) at a concrete input: with two points and
`now = 0`, the first output timestamp is `-86400000` (24 hours before now). -/
theorem normalize_24h_axis_witness :
    (normalizeTimestamps [((0 : ℚ), (1 : ℚ)), ((0 : ℚ), (2 : ℚ))] 24 0 false).head?.map Prod.fst
      = some ((0 : ℚ) - 86400000) :=
  (normalize_24h_axis [((0 : ℚ), (1 : ℚ)), ((0 : ℚ), (2 : ℚ))] 0 (by decide)).2.2.1

/-- Claim C5 (counterexample to the claim as stated): a 24-point
hourly-anchored input normalized against `now = 86400000` ends at
`82800000 = now - 1 hour`, not at `now` — the synthetic axis stops one
interval short of `now`. -/
theorem normalize_24h_last_not_now :
    (normalizeTimestamps (List.replicate 24 ((0 : ℚ), (1 : ℚ))) 24 86400000 false).getLast?.map
        Prod.fst = some 82800000
    ∧ (82800000 : ℚ) ≠ 86400000 := by
  constructor
  · rw [normalizeTimestamps_24h _ _ (by simp),
      normalizeLoop_getLast _ _ _ 0 (by simp)]
    norm_num
  · norm_num

/-- Claim C6: the percent-change series takes the first element's value as
baseline; a zero baseline zeroes every output value, otherwise each value
becomes `(value - baseline) / baseline * 100` rounded half away from zero to
two decimals; timestamps are kept. -/
theorem percentChange_spec (data : List TimePoint) (hne : data ≠ []) :
    ((data.head hne).2 = 0 →
        calculatePercentageChange data = data.map (fun p => (p.1, 0)))
    ∧ ((data.head hne).2 ≠ 0 →
        calculatePercentageChange data
          = data.map (fun p =>
              (p.1, round2 ((p.2 - (data.head hne).2) / (data.head hne).2 * 100)))) := by
  cases data with
  | nil => exact absurd rfl hne
  | cons p0 rest =>
    simp only [calculatePercentageChange, List.head_cons]
    constructor
    · intro h0
      rw [if_pos h0]
    · intro h0
      rw [if_neg h0]

/-- Witness for C6: on the specification's example `[(0,0),(1,5)]` the
baseline is 0, so all output percents are 0. -/
theorem percentChange_spec_witness :
    calculatePercentageChange [((0 : ℚ), (0 : ℚ)), ((1 : ℚ), (5 : ℚ))]
      = [((0 : ℚ), (0 : ℚ)), ((1 : ℚ), (0 : ℚ))] :=
  ((percentChange_spec [((0 : ℚ), (0 : ℚ)), ((1 : ℚ), (5 : ℚ))] (by decide)).1
    (by decide)).trans (by decide)

/-- Claim C10: the percent-change series preserves the shape of its input —
same length, and the timestamp of every position is unchanged; only the
value component is rewritten. -/
theorem percentChange_preserves_shape (data : List TimePoint) :
    (calculatePercentageChange data).length = data.length
    ∧ ∀ (i : Nat) (hi : i < (calculatePercentageChange data).length)
        (hd : i < data.length),
        ((calculatePercentageChange data).get ⟨i, hi⟩).1 = (data.get ⟨i, hd⟩).1 := by
  cases data with
  | nil =>
    refine ⟨rfl, ?_⟩
    intro i hi hd
    exact absurd hd (by simp)
  | cons p0 rest =>
    obtain ⟨g, hg⟩ : ∃ g : TimePoint → ℚ,
        calculatePercentageChange (p0 :: rest) = (p0 :: rest).map (fun p => (p.1, g p)) := by
      by_cases h0 : p0.2 = 0
      · exact ⟨fun _ => 0, by rw [calculatePercentageChange, if_pos h0]⟩
      · exact ⟨fun p => round2 ((p.2 - p0.2) / p0.2 * 100),
          by rw [calculatePercentageChange, if_neg h0]⟩
    refine ⟨by rw [hg]; simp, ?_⟩
    intro i hi hd
    rw [List.get_of_eq hg ⟨i, hi⟩, List.get_map]

/-- Witness for C10 at a concrete input: the timestamp of position 0 is kept. -/
theorem percentChange_preserves_shape_witness :
    ((calculatePercentageChange [((3 : ℚ), (5 : ℚ)), ((7 : ℚ), (11 : ℚ))]).get
        ⟨0, by decide⟩).1
      = (([((3 : ℚ), (5 : ℚ)), ((7 : ℚ), (11 : ℚ))] : List TimePoint).get ⟨0, by decide⟩).1 :=
  (percentChange_preserves_shape [((3 : ℚ), (5 : ℚ)), ((7 : ℚ), (11 : ℚ))]).2 0
    (by decide) (by decide)

end CoingeckoSync
